import Mathlib

/-!
Shallow embedding of the Founders Club request/approval workflow
(`src/app/api/founders/request/route.ts`: the intake `POST`/`GET` handlers
and the approval `POST` handler with its `generateInviteCode` helper).

Strings are Lean `String`s; JavaScript `trim`/`toLowerCase` are modelled
character-wise; the data store is a pair of in-memory tables with the
PostgREST `.single()` semantics (a row is returned iff exactly one row
matches); wall-clock time is an abstract millisecond counter carried in
the state; `Math.random`-driven code generation takes an explicit stream
of draws; the store interactions of the approval handler that the code
treats as fallible take explicit failure flags.
-/

/-- Model of JavaScript `String.prototype.trim` on the character list:
drop whitespace from both ends. -/
def trimChars (l : List Char) : List Char :=
  ((l.dropWhile Char.isWhitespace).reverse.dropWhile Char.isWhitespace).reverse

/-- Model of JavaScript `String.prototype.trim`. -/
def jsTrim (s : String) : String := ⟨trimChars s.data⟩

/-- Model of JavaScript `String.prototype.toLowerCase`, character-wise. -/
def jsLower (s : String) : String := ⟨s.data.map Char.toLower⟩

/-- A character the regex classes `[^\s@]` accept: not whitespace, not `@`. -/
def isEmailChar (c : Char) : Bool := !c.isWhitespace && !(c == '@')

/-- Model of the intake email check, the regex `^[^\s@]+@[^\s@]+\.[^\s@]+$`:
some position `j ≥ 1` holds the (necessarily unique) `@`, every character on
either side is neither whitespace nor `@`, and the domain part after the `@`
contains a `.` that is neither its first nor its last character. -/
def emailValid (s : String) : Bool :=
  let cs := s.data
  (List.range cs.length).any (fun j =>
    cs.getD j ' ' == '@' && decide (1 ≤ j) &&
    (cs.take j).all isEmailChar &&
    (cs.drop (j+1)).all isEmailChar &&
    (let d := cs.drop (j+1)
     (List.range d.length).any
       (fun i => d.getD i ' ' == '.' && decide (1 ≤ i) && decide (i + 1 < d.length))))

theorem char_ofNat_toNat_of_le (n : Nat) (h1 : 97 ≤ n) (h2 : n ≤ 122) :
    (Char.ofNat n).toNat = n := by
  have hv : n.isValidChar := Or.inl (by omega)
  simp [Char.ofNat, hv, Char.ofNatAux, Char.toNat, UInt32.toNat, BitVec.toNat_ofNatLt]

theorem ws_iff_toNat (c : Char) :
    c.isWhitespace = true ↔ (c.toNat = 32 ∨ c.toNat = 9 ∨ c.toNat = 13 ∨ c.toNat = 10) := by
  constructor
  · intro h
    simp only [Char.isWhitespace, Bool.or_eq_true, decide_eq_true_eq] at h
    rcases h with ((rfl | rfl) | rfl) | rfl <;> simp [Char.toNat]
  · intro h
    have hval : c.val.toNat = 32 ∨ c.val.toNat = 9 ∨ c.val.toNat = 13 ∨ c.val.toNat = 10 := h
    have hc : c = ' ' ∨ c = '\t' ∨ c = '\x0d' ∨ c = '\n' := by
      rcases hval with h32 | h9 | h13 | h10
      · exact Or.inl (Char.ext (UInt32.ext (by simpa using h32)))
      · exact Or.inr (Or.inl (Char.ext (UInt32.ext (by simpa using h9))))
      · exact Or.inr (Or.inr (Or.inl (Char.ext (UInt32.ext (by simpa using h13)))))
      · exact Or.inr (Or.inr (Or.inr (Char.ext (UInt32.ext (by simpa using h10)))))
    rcases hc with rfl | rfl | rfl | rfl <;> decide

theorem toLower_eq_ite (c : Char) :
    Char.toLower c =
      if c.toNat ≥ 65 ∧ c.toNat ≤ 90 then Char.ofNat (c.toNat + 32) else c := rfl

theorem toLower_isWhitespace (c : Char) :
    (Char.toLower c).isWhitespace = c.isWhitespace := by
  rw [toLower_eq_ite]
  split
  · next h =>
    have ht : (Char.ofNat (c.toNat + 32)).toNat = c.toNat + 32 :=
      char_ofNat_toNat_of_le _ (by omega) (by omega)
    have h1 : (Char.ofNat (c.toNat + 32)).isWhitespace = false := by
      by_contra hcon
      have := (ws_iff_toNat _).mp (by simpa using hcon)
      omega
    have h2 : c.isWhitespace = false := by
      by_contra hcon
      have := (ws_iff_toNat c).mp (by simpa using hcon)
      omega
    rw [h1, h2]
  · rfl

theorem toLower_toLower (c : Char) : Char.toLower (Char.toLower c) = Char.toLower c := by
  rw [toLower_eq_ite c]
  split
  · next h =>
    have ht : (Char.ofNat (c.toNat + 32)).toNat = c.toNat + 32 :=
      char_ofNat_toNat_of_le _ (by omega) (by omega)
    rw [toLower_eq_ite, ht, if_neg (by omega)]
  · next h =>
    rw [toLower_eq_ite, if_neg h]

theorem dropWhile_eq_self_of_not (p : Char → Bool) (l : List Char)
    (h : ∀ c ∈ l, p c = false) : l.dropWhile p = l := by
  cases l with
  | nil => rfl
  | cons a as => simp [List.dropWhile_cons, h a (by simp)]

theorem trimChars_of_no_ws (l : List Char) (h : ∀ c ∈ l, c.isWhitespace = false) :
    trimChars l = l := by
  unfold trimChars
  rw [dropWhile_eq_self_of_not _ _ h,
      dropWhile_eq_self_of_not _ _ (by intro c hc; exact h c (List.mem_reverse.mp hc)),
      List.reverse_reverse]

theorem emailValid_no_ws (s : String) (h : emailValid s = true) :
    ∀ c ∈ s.data, c.isWhitespace = false := by
  unfold emailValid at h
  simp only [List.any_eq_true, List.mem_range, Bool.and_eq_true, List.all_eq_true,
    beq_iff_eq, decide_eq_true_eq] at h
  obtain ⟨j, hj, ⟨⟨⟨hat, h1j⟩, htake⟩, hdrop⟩, _⟩ := h
  intro c hc
  have hsplit : s.data = s.data.take j ++ s.data.drop j := (List.take_append_drop _ _).symm
  have hdropj : s.data.drop j = s.data[j] :: s.data.drop (j+1) :=
    List.drop_eq_getElem_cons hj
  have hgetat : s.data[j] = '@' := by
    rw [← List.getD_eq_getElem s.data ' ' hj]; exact hat
  rw [hsplit, hdropj] at hc
  rcases List.mem_append.mp hc with hmem | hmem
  · have := htake c hmem
    unfold isEmailChar at this
    simp only [Bool.and_eq_true, Bool.not_eq_true'] at this
    exact this.1
  · rcases List.mem_cons.mp hmem with rfl | hmem
    · rw [hgetat]; decide
    · have := hdrop c hmem
      unfold isEmailChar at this
      simp only [Bool.and_eq_true, Bool.not_eq_true'] at this
      exact this.1

theorem jsTrim_jsLower_of_emailValid (s : String) (h : emailValid s = true) :
    jsTrim (jsLower s) = jsLower s := by
  have hno : ∀ c ∈ (jsLower s).data, c.isWhitespace = false := by
    intro c hc
    unfold jsLower at hc
    simp only [List.mem_map] at hc
    obtain ⟨a, ha, rfl⟩ := hc
    rw [toLower_isWhitespace]
    exact emailValid_no_ws s h a ha
  unfold jsTrim
  rw [trimChars_of_no_ws _ hno]

theorem jsLower_jsLower (s : String) : jsLower (jsLower s) = jsLower s := by
  unfold jsLower
  simp only [List.map_map]
  congr 1
  exact List.map_congr_left (fun c _ => toLower_toLower c)

/-- The two status values this workflow ever writes. -/
inductive Status
  | pending
  | approved
deriving DecidableEq

/-- A row of the `founders_requests` table. -/
structure FoundersRequest where
  id : Nat
  full_name : String
  email : String
  phone : String
  profession : String
  note : Option String
  status : Status
  created_at : Nat
deriving DecidableEq

/-- A row of the `founders_invite_codes` table. -/
structure InviteCode where
  id : Nat
  code : String
  email : String
  phone : String
  request_id : Nat
  expires_at : Nat
deriving DecidableEq

/-- The data-store state: the two tables, the next server-generated id
(ids start at 1, as JavaScript treats the id 0 as falsy), and an abstract
wall clock in milliseconds, bumped on every insert. -/
structure DB where
  founders_requests : List FoundersRequest
  founders_invite_codes : List InviteCode
  nextId : Nat
  now : Nat
deriving DecidableEq

def emptyDB : DB := ⟨[], [], 1, 0⟩

/-- PostgREST `.single()`: data is the row iff exactly one row matched;
on zero or several matches data is null (with an error the handlers
do not inspect on these paths). -/
def singleRow {α : Type} : List α → Option α
  | [x] => some x
  | _ => none

/-- JavaScript truthiness test `!x` for an optional string field:
true iff the field is absent or the empty string. -/
def falsyStr : Option String → Bool
  | none => true
  | some s => s == ""

/-- The body of `POST /api/founders/request`. -/
structure IntakeInput where
  fullName : Option String
  email : Option String
  phone : Option String
  profession : Option String
  note : Option String
deriving DecidableEq

/-- Outcome of the intake handler (`POST` in the request route). -/
inductive IntakeResult
  | validationError
  | invalidEmail
  | pendingConflict
  | approvedConflict
  | success (requestId : Nat)
deriving DecidableEq

/-- The stored note: `note?.trim() || null`. -/
def noteField : Option String → Option String
  | none => none
  | some s => if jsTrim s == "" then none else some (jsTrim s)

/-- The row the intake handler inserts: string fields trimmed, email
lower-cased then trimmed, status `pending`, server-generated id and
creation timestamp. -/
def newRequestRow (db : DB) (inp : IntakeInput) : FoundersRequest :=
  { id := db.nextId
    full_name := jsTrim (inp.fullName.getD "")
    email := jsTrim (jsLower (inp.email.getD ""))
    phone := jsTrim (inp.phone.getD "")
    profession := jsTrim (inp.profession.getD "")
    note := noteField inp.note
    status := Status.pending
    created_at := db.now }

/-- Model of `POST /api/founders/request`: required-field check, email
regex, duplicate-pending check, duplicate-approved check, then insert of
the trimmed/lower-cased row with status `pending`. -/
def intakePOST (db : DB) (inp : IntakeInput) : IntakeResult × DB :=
  if falsyStr inp.fullName || falsyStr inp.email || falsyStr inp.phone ||
      falsyStr inp.profession then
    (.validationError, db)
  else if !emailValid (inp.email.getD "") then
    (.invalidEmail, db)
  else
    match singleRow (db.founders_requests.filter
        (fun r => r.email == jsLower (inp.email.getD "") && r.status == Status.pending)) with
    | some _ => (.pendingConflict, db)
    | none =>
      match singleRow (db.founders_requests.filter
          (fun r => r.email == jsLower (inp.email.getD "") && r.status == Status.approved)) with
      | some _ => (.approvedConflict, db)
      | none =>
        (.success db.nextId,
          { db with
              founders_requests := db.founders_requests ++ [newRequestRow db inp]
              nextId := db.nextId + 1
              now := db.now + 1 })

/-- Outcome of the status-lookup handler (`GET` in the request route). -/
inductive GetResult
  | missingEmail
  | noRequest
  | found (status : Status) (createdAt : Nat)
deriving DecidableEq

/-- The row `order by created_at desc limit 1` returns. -/
def mostRecent : List FoundersRequest → Option FoundersRequest
  | [] => none
  | r :: rs =>
    match mostRecent rs with
    | none => some r
    | some m => if m.created_at > r.created_at then some m else some r

/-- Model of `GET /api/founders/request?email=`. -/
def requestGET (db : DB) (email : Option String) : GetResult :=
  if falsyStr email then .missingEmail
  else
    match mostRecent (db.founders_requests.filter
        (fun r => r.email == jsLower (email.getD ""))) with
    | none => .noRequest
    | some r => .found r.status r.created_at

/-- Alphabet of `generateInviteCode` (`I`, `O`, `0`, `1` removed). -/
def inviteChars : List Char := "ABCDEFGHJKLMNPQRSTUVWXYZ23456789".data

/-- Model of `generateInviteCode`: the `k`-th call of an approval run draws
its eight `Math.floor(Math.random() * chars.length)` values from the stream
`rand` at positions `8*k .. 8*k+7` (reduced mod 32, which is the identity on
the values the source can draw, to keep the model total). -/
def generateInviteCode (rand : Nat → Nat) (k : Nat) : String :=
  "FC-" ++ ⟨(List.range 8).map (fun i => inviteChars.getD (rand (8*k + i) % 32) 'A')⟩

/-- The `.single()`-based collision check of the retry loop: the candidate
counts as taken iff exactly one row carries it. -/
def codeTaken (codes : List InviteCode) (c : String) : Bool :=
  (codes.filter (fun row => row.code == c)).length == 1

/-- The `while (attempts < maxAttempts)` retry loop, with
`remaining = maxAttempts - attempts` as fuel; `callIdx` counts the
`generateInviteCode` calls made so far. `none` models leaving the loop
with `attempts >= maxAttempts`. -/
def codeLoop (codes : List InviteCode) (rand : Nat → Nat) :
    Nat → String → Nat → Option String
  | _, _, 0 => none
  | callIdx, current, r+1 =>
    if codeTaken codes current then
      codeLoop codes rand (callIdx+1) (generateInviteCode rand (callIdx+1)) r
    else some current

/-- The whole uniqueness-retry phase of the approval handler:
`maxAttempts = 10`, first candidate generated before the loop. -/
def findUniqueCode (codes : List InviteCode) (rand : Nat → Nat) : Option String :=
  codeLoop codes rand 0 (generateInviteCode rand 0) 10

/-- Failure flags for the store/mail interactions of one approval call that
the handler treats as fallible. -/
structure ApproveFaults where
  fetchFault : Bool
  insertFault : Bool
  updateFault : Bool
  emailFault : Bool
deriving DecidableEq

/-- Outcome of the approval handler (`POST` in the approve route). -/
inductive ApproveResult
  | missingId
  | notFound
  | alreadyProcessed
  | generationFailure
  | insertFailure
  | success (code : String) (expiresAt : Nat)
deriving DecidableEq

/-- 72 hours in milliseconds: `expiresAt.setHours(expiresAt.getHours() + 72)`
on the wall clock. -/
def seventyTwoHoursMs : Nat := 72 * 60 * 60 * 1000

/-- The invite-code row the approval handler inserts: the unique code, the
request's email and phone, the originating request id and the expiry
`now + 72 hours`. -/
def newInviteRow (db : DB) (req : FoundersRequest) (rid : Nat) (c : String) : InviteCode :=
  { id := db.nextId
    code := c
    email := req.email
    phone := req.phone
    request_id := rid
    expires_at := db.now + seventyTwoHoursMs }

/-- State after the invite-code insert of an approval. -/
def insertInviteCode (db : DB) (req : FoundersRequest) (rid : Nat) (c : String) : DB :=
  { db with
      founders_invite_codes := db.founders_invite_codes ++ [newInviteRow db req rid c]
      nextId := db.nextId + 1
      now := db.now + 1 }

/-- State after `update founders_requests set status = approved where id = rid`. -/
def updateStatusApproved (db : DB) (rid : Nat) : DB :=
  { db with
      founders_requests := db.founders_requests.map
        (fun r => if r.id == rid then { r with status := Status.approved } else r) }

/-- Model of `POST /api/founders/approve`: id presence check, fetch by id
(`fetchError || !foundersRequest` collapses to a 404), pending guard,
uniqueness retry loop, expiry computation, invite-code insert (fatal on
failure), best-effort status update, best-effort email send (no effect on
state or response either way). -/
def approvePOST (db : DB) (requestId : Option Nat) (rand : Nat → Nat)
    (f : ApproveFaults) : ApproveResult × DB :=
  match requestId with
  | none => (.missingId, db)
  | some rid =>
    if rid == 0 then (.missingId, db)
    else
      match (if f.fetchFault then none
             else singleRow (db.founders_requests.filter (fun r => r.id == rid))) with
      | none => (.notFound, db)
      | some req =>
        if req.status ≠ Status.pending then (.alreadyProcessed, db)
        else
          match findUniqueCode db.founders_invite_codes rand with
          | none => (.generationFailure, db)
          | some inviteCode =>
            if f.insertFault then (.insertFailure, db)
            else
              (.success inviteCode (db.now + seventyTwoHoursMs),
                if f.updateFault then insertInviteCode db req rid inviteCode
                else updateStatusApproved (insertInviteCode db req rid inviteCode) rid)

/-- One externally driven operation against the workflow. -/
inductive Op
  | intake (inp : IntakeInput)
  | approve (requestId : Option Nat) (rand : Nat → Nat) (f : ApproveFaults)
  | statusLookup (email : Option String)

/-- State reached after one operation (the response is discarded). -/
def applyOp (db : DB) : Op → DB
  | .intake inp => (intakePOST db inp).2
  | .approve rid rand f => (approvePOST db rid rand f).2
  | .statusLookup _ => db

/-- State reached from the empty store after a sequence of operations. -/
def runOps (ops : List Op) : DB := ops.foldl applyOp emptyDB

/-- At most one `pending` row per case-insensitive email. -/
def pendingUniqueCI (db : DB) : Prop :=
  ∀ e : String,
    (db.founders_requests.filter
      (fun r => jsLower r.email == e && r.status == Status.pending)).length ≤ 1

/-- Every stored request email is already lower-cased. -/
def emailsStoredLower (db : DB) : Prop :=
  ∀ r ∈ db.founders_requests, r.email = jsLower r.email

/-- No two invite-code rows share a code string. -/
def codesDistinct (db : DB) : Prop :=
  (db.founders_invite_codes.map (fun row => row.code)).Nodup

/-- No two request rows share an id. -/
def requestIdsUnique (db : DB) : Prop :=
  (db.founders_requests.map (fun r => r.id)).Nodup

theorem singleRow_eq_none_iff {α : Type} (l : List α) :
    singleRow l = none ↔ l.length ≠ 1 := by
  cases l with
  | nil => simp [singleRow]
  | cons a t => cases t <;> simp [singleRow]

theorem singleRow_eq_some_iff {α : Type} (l : List α) (x : α) :
    singleRow l = some x ↔ l = [x] := by
  cases l with
  | nil => simp [singleRow]
  | cons a t => cases t <;> simp [singleRow]

theorem filter_beq_length_le_one {α β : Type} [BEq β] [LawfulBEq β]
    (l : List α) (f : α → β) (b : β) (h : (l.map f).Nodup) :
    (l.filter (fun a => f a == b)).length ≤ 1 := by
  induction l with
  | nil => simp
  | cons a t ih =>
    simp only [List.map_cons, List.nodup_cons] at h
    rw [List.filter_cons]
    by_cases hfa : (f a == b) = true
    · rw [if_pos hfa]
      have hb : f a = b := eq_of_beq hfa
      have ht : t.filter (fun x => f x == b) = [] := by
        apply List.filter_eq_nil_iff.mpr
        intro x hx hxb
        exact h.1 (hb ▸ (eq_of_beq hxb) ▸ List.mem_map_of_mem f hx)
      simp [ht]
    · rw [if_neg hfa]
      exact ih h.2

theorem length_filter_map_le {α : Type} (g : α → α) (p : α → Bool) (l : List α)
    (h : ∀ a ∈ l, p (g a) = true → p a = true) :
    ((l.map g).filter p).length ≤ (l.filter p).length := by
  induction l with
  | nil => simp
  | cons a t ih =>
    have iht := ih (fun x hx => h x (List.mem_cons_of_mem a hx))
    simp only [List.map_cons, List.filter_cons]
    by_cases hga : p (g a) = true
    · rw [if_pos hga, if_pos (h a (List.mem_cons_self a t) hga)]
      simpa using iht
    · rw [if_neg hga]
      by_cases ha : p a = true
      · rw [if_pos ha]
        exact Nat.le_succ_of_le iht
      · rw [if_neg ha]
        exact iht

theorem codeLoop_eq_some (codes : List InviteCode) (rand : Nat → Nat) :
    ∀ (n k : Nat) (cur c : String), codeLoop codes rand k cur n = some c →
      codeTaken codes c = false ∧ (c = cur ∨ ∃ j, c = generateInviteCode rand j) := by
  intro n
  induction n with
  | zero => intro k cur c h; exact absurd h (by simp [codeLoop])
  | succ r ih =>
    intro k cur c h
    rw [codeLoop] at h
    by_cases ht : codeTaken codes cur = true
    · rw [if_pos ht] at h
      obtain ⟨h1, h2⟩ := ih (k+1) _ c h
      exact ⟨h1, Or.inr (h2.elim (fun he => ⟨k+1, he⟩) id)⟩
    · rw [if_neg ht] at h
      cases h
      exact ⟨Bool.not_eq_true _ ▸ ht, Or.inl rfl⟩

theorem findUniqueCode_eq_some (codes : List InviteCode) (rand : Nat → Nat)
    (c : String) (h : findUniqueCode codes rand = some c) :
    codeTaken codes c = false ∧ ∃ j, c = generateInviteCode rand j := by
  obtain ⟨h1, h2⟩ := codeLoop_eq_some codes rand 10 0 _ c h
  exact ⟨h1, h2.elim (fun he => ⟨0, he⟩) id⟩

theorem codeLoop_eq_none_iff (codes : List InviteCode) (rand : Nat → Nat) :
    ∀ (n k : Nat),
      codeLoop codes rand k (generateInviteCode rand k) n = none ↔
        ∀ j, k ≤ j → j < k + n → codeTaken codes (generateInviteCode rand j) = true := by
  intro n
  induction n with
  | zero =>
    intro k
    simp only [codeLoop]
    constructor
    · intro _ j h1 h2; omega
    · intro _; trivial
  | succ r ih =>
    intro k
    rw [codeLoop]
    by_cases ht : codeTaken codes (generateInviteCode rand k) = true
    · rw [if_pos ht, ih (k+1)]
      constructor
      · intro h j h1 h2
        rcases Nat.eq_or_lt_of_le h1 with rfl | hlt
        · exact ht
        · exact h j hlt (by omega)
      · intro h j h1 h2
        exact h j (by omega) (by omega)
    · rw [if_neg ht]
      constructor
      · intro h; exact absurd h (by simp)
      · intro h
        exact absurd (h k (le_refl k) (by omega)) ht

theorem findUniqueCode_eq_none_iff (codes : List InviteCode) (rand : Nat → Nat) :
    findUniqueCode codes rand = none ↔
      ∀ j < 10, codeTaken codes (generateInviteCode rand j) = true := by
  rw [findUniqueCode, codeLoop_eq_none_iff codes rand 10 0]
  constructor
  · intro h j hj; exact h j (Nat.zero_le j) (by omega)
  · intro h j _ hj; exact h j (by omega)

theorem trimChars_of_all_ws (l : List Char) (h : ∀ c ∈ l, c.isWhitespace = true) :
    trimChars l = [] := by
  unfold trimChars
  have : l.dropWhile Char.isWhitespace = [] := by
    induction l with
    | nil => rfl
    | cons a t ih =>
      rw [List.dropWhile_cons, if_pos (h a (List.mem_cons_self a t))]
      exact ih (fun c hc => h c (List.mem_cons_of_mem a hc))
  rw [this]
  rfl

theorem intakePOST_state (db : DB) (inp : IntakeInput) :
    (intakePOST db inp).2 = db ∨
    (emailValid (inp.email.getD "") = true ∧
     singleRow (db.founders_requests.filter
        (fun r => r.email == jsLower (inp.email.getD "") && r.status == Status.pending)) = none ∧
     (intakePOST db inp).2 =
       { db with
           founders_requests := db.founders_requests ++ [newRequestRow db inp]
           nextId := db.nextId + 1
           now := db.now + 1 }) := by
  unfold intakePOST
  split
  · left; rfl
  · split
    · left; rfl
    · next hev =>
      split
      · left; rfl
      · next hpend =>
        split
        · left; rfl
        · right
          exact ⟨by simpa using hev, hpend, rfl⟩

theorem approvePOST_state (db : DB) (rid : Option Nat) (rand : Nat → Nat)
    (f : ApproveFaults) :
    (approvePOST db rid rand f).2 = db ∨
    (∃ (r : Nat) (req : FoundersRequest) (c : String),
       singleRow (db.founders_requests.filter (fun x => x.id == r)) = some req ∧
       req.status = Status.pending ∧
       findUniqueCode db.founders_invite_codes rand = some c ∧
       ((approvePOST db rid rand f).2 = insertInviteCode db req r c ∨
        (approvePOST db rid rand f).2 = updateStatusApproved (insertInviteCode db req r c) r)) := by
  unfold approvePOST
  split
  · left; rfl
  · next r =>
    split
    · left; rfl
    · split
      · left; rfl
      · next req hfetch =>
        split
        · left; rfl
        · next hpend =>
          split
          · left; rfl
          · next c hcode =>
            split
            · left; rfl
            · right
              refine ⟨r, req, c, ?_, ?_, hcode, ?_⟩
              · by_cases hf : f.fetchFault = true
                · rw [if_pos hf] at hfetch; exact absurd hfetch (by simp)
                · rw [if_neg hf] at hfetch; exact hfetch
              · simpa using hpend
              · split
                · left; rfl
                · right; rfl

/-- Invariant carried by every reachable store state. -/
def ReachInv (db : DB) : Prop :=
  emailsStoredLower db ∧ pendingUniqueCI db ∧ codesDistinct db

theorem filter_congr_emails (rows : List FoundersRequest) (key : String)
    (hlow : ∀ r ∈ rows, r.email = jsLower r.email) (st : Status) :
    rows.filter (fun r => r.email == key && r.status == st) =
    rows.filter (fun r => jsLower r.email == key && r.status == st) :=
  List.filter_congr (fun r hr => by rw [← hlow r hr])

theorem intake_preserves_inv (db : DB) (inp : IntakeInput) (h : ReachInv db) :
    ReachInv (intakePOST db inp).2 := by
  obtain ⟨hlow, hpu, hcd⟩ := h
  rcases intakePOST_state db inp with heq | ⟨hev, hpend, heq⟩
  · rw [heq]; exact ⟨hlow, hpu, hcd⟩
  · rw [heq]
    have hrow : (newRequestRow db inp).email = jsLower (inp.email.getD "") := by
      unfold newRequestRow
      exact jsTrim_jsLower_of_emailValid _ hev
    refine ⟨?_, ?_, hcd⟩
    · intro r hr
      rcases List.mem_append.mp hr with hr | hr
      · exact hlow r hr
      · have : r = newRequestRow db inp := List.mem_singleton.mp hr
        rw [this, hrow, jsLower_jsLower]
    · intro key
      show (List.filter _ (db.founders_requests ++ [newRequestRow db inp])).length ≤ 1
      rw [List.filter_append]
      by_cases hkey : (jsLower (newRequestRow db inp).email == key &&
          (newRequestRow db inp).status == Status.pending) = true
      · have hkeyeq : key = jsLower (inp.email.getD "") := by
          have h1 := (Bool.and_eq_true _ _).mp hkey |>.1
          have h2 : jsLower (newRequestRow db inp).email = key := eq_of_beq h1
          rw [hrow, jsLower_jsLower] at h2
          exact h2.symm
        have hne : (db.founders_requests.filter
            (fun r => jsLower r.email == key && r.status == Status.pending)).length ≠ 1 := by
          rw [hkeyeq, ← filter_congr_emails db.founders_requests _ hlow Status.pending]
          exact (singleRow_eq_none_iff _).mp hpend
        have hle := hpu key
        have hzero : (db.founders_requests.filter
            (fun r => jsLower r.email == key && r.status == Status.pending)).length = 0 := by
          omega
        rw [List.length_append, hzero, List.filter_cons, if_pos hkey]
        simp
      · rw [List.length_append, List.filter_cons, if_neg hkey]
        simpa using hpu key

theorem approve_preserves_inv (db : DB) (rid : Option Nat) (rand : Nat → Nat)
    (f : ApproveFaults) (h : ReachInv db) : ReachInv (approvePOST db rid rand f).2 := by
  obtain ⟨hlow, hpu, hcd⟩ := h
  rcases approvePOST_state db rid rand f with heq | ⟨r, req, c, hfetch, hpend, hcode, hdb⟩
  · rw [heq]; exact ⟨hlow, hpu, hcd⟩
  · have hfree : codeTaken db.founders_invite_codes c = false :=
      (findUniqueCode_eq_some _ _ _ hcode).1
    have hnotmem : c ∉ db.founders_invite_codes.map (fun row => row.code) := by
      intro hmem
      obtain ⟨row, hrow, hrowc⟩ := List.mem_map.mp hmem
      have hle : (db.founders_invite_codes.filter (fun row => row.code == c)).length ≤ 1 :=
        filter_beq_length_le_one db.founders_invite_codes (fun row => row.code) c hcd
      have hge : 0 < (db.founders_invite_codes.filter (fun row => row.code == c)).length :=
        List.length_pos_of_mem (List.mem_filter.mpr ⟨hrow, by simp [hrowc]⟩)
      unfold codeTaken at hfree
      simp only [beq_eq_false_iff_ne, ne_eq] at hfree
      omega
    have hinv1 : ReachInv (insertInviteCode db req r c) := by
      refine ⟨fun x hx => hlow x hx, fun key => hpu key, ?_⟩
      show ((db.founders_invite_codes ++ [newInviteRow db req r c]).map
        (fun row => row.code)).Nodup
      rw [List.map_append, List.nodup_append]
      refine ⟨hcd, by simp, ?_⟩
      intro a ha hmem
      have : a = c := by simpa [newInviteRow] using hmem
      exact hnotmem (this ▸ ha)
    rcases hdb with heq | heq
    · rw [heq]; exact hinv1
    · rw [heq]
      obtain ⟨h1, h2, h3⟩ := hinv1
      refine ⟨?_, ?_, h3⟩
      · intro x hx
        obtain ⟨y, hy, rfl⟩ := List.mem_map.mp hx
        by_cases hid : y.id = r <;> simp [hid] <;> exact h1 y hy
      · intro key
        have := length_filter_map_le
          (fun x => if x.id == r then { x with status := Status.approved } else x)
          (fun x => jsLower x.email == key && x.status == Status.pending)
          (insertInviteCode db req r c).founders_requests
          (fun a _ hpa => by
            by_cases hid : a.id = r
            · exfalso
              simp [hid] at hpa
            · simpa [hid] using hpa)
        exact le_trans this (h2 key)

theorem reachInv_emptyDB : ReachInv emptyDB := by
  refine ⟨?_, ?_, ?_⟩
  · intro r hr
    exact absurd hr (by simp [emptyDB])
  · intro key
    simp [emptyDB]
  · simp [codesDistinct, emptyDB]

theorem reachInv_applyOp (db : DB) (op : Op) (h : ReachInv db) : ReachInv (applyOp db op) := by
  cases op with
  | intake inp => exact intake_preserves_inv db inp h
  | approve rid rand f => exact approve_preserves_inv db rid rand f h
  | statusLookup _ => exact h

theorem reachInv_foldl (ops : List Op) : ∀ db, ReachInv db → ReachInv (ops.foldl applyOp db) := by
  induction ops with
  | nil => intro db h; exact h
  | cons op t ih => intro db h; exact ih _ (reachInv_applyOp db op h)

theorem reachInv_runOps (ops : List Op) : ReachInv (runOps ops) :=
  reachInv_foldl ops emptyDB reachInv_emptyDB

theorem approvePOST_reaches_codegen (db : DB) (rid : Nat) (rand : Nat → Nat)
    (f : ApproveFaults) (hrid : rid ≠ 0) (hff : f.fetchFault = false)
    (req : FoundersRequest)
    (hfetch : singleRow (db.founders_requests.filter (fun r => r.id == rid)) = some req)
    (hpend : req.status = Status.pending) :
    approvePOST db (some rid) rand f =
      match findUniqueCode db.founders_invite_codes rand with
      | none => (.generationFailure, db)
      | some c =>
        if f.insertFault then (.insertFailure, db)
        else (.success c (db.now + seventyTwoHoursMs),
              if f.updateFault then insertInviteCode db req rid c
              else updateStatusApproved (insertInviteCode db req rid c) rid) := by
  unfold approvePOST
  dsimp only
  rw [if_neg (by simp [hrid]), hff]
  simp only [Bool.false_eq_true, if_false, hfetch]
  rw [if_neg (by simp [hpend])]

theorem approvePOST_success_state (db : DB) (rid : Nat) (rand : Nat → Nat)
    (hrid : rid ≠ 0) (req : FoundersRequest)
    (hfetch : singleRow (db.founders_requests.filter (fun r => r.id == rid)) = some req)
    (hpend : req.status = Status.pending)
    (c : String) (hcode : findUniqueCode db.founders_invite_codes rand = some c)
    (u e : Bool) :
    approvePOST db (some rid) rand ⟨false, false, u, e⟩ =
      (.success c (db.now + seventyTwoHoursMs),
       if u then insertInviteCode db req rid c
       else updateStatusApproved (insertInviteCode db req rid c) rid) := by
  rw [approvePOST_reaches_codegen db rid rand ⟨false, false, u, e⟩ hrid rfl req hfetch hpend,
      hcode]
  rfl

theorem approvePOST_success_code (db : DB) (rid : Option Nat) (rand : Nat → Nat)
    (f : ApproveFaults) (c : String) (t : Nat)
    (h : (approvePOST db rid rand f).1 = .success c t) :
    findUniqueCode db.founders_invite_codes rand = some c := by
  unfold approvePOST at h
  split at h
  · exact absurd h (by simp)
  · split at h
    · exact absurd h (by simp)
    · split at h
      · exact absurd h (by simp)
      · split at h
        · exact absurd h (by simp)
        · split at h
          · exact absurd h (by simp)
          · rename_i s hs
            split at h
            · exact absurd h (by simp)
            · dsimp only at h
              injection h with h1 h2
              rw [hs, h1]

theorem intakePOST_success_eq (db : DB) (inp : IntakeInput)
    (hfn : falsyStr inp.fullName = false) (hem : falsyStr inp.email = false)
    (hph : falsyStr inp.phone = false) (hpr : falsyStr inp.profession = false)
    (hev : emailValid (inp.email.getD "") = true)
    (hpend : db.founders_requests.filter
        (fun r => r.email == jsLower (inp.email.getD "") && r.status == Status.pending) = [])
    (happ : db.founders_requests.filter
        (fun r => r.email == jsLower (inp.email.getD "") && r.status == Status.approved) = []) :
    intakePOST db inp =
      (.success db.nextId,
        { db with
            founders_requests := db.founders_requests ++ [newRequestRow db inp]
            nextId := db.nextId + 1
            now := db.now + 1 }) := by
  unfold intakePOST
  rw [hfn, hem, hph, hpr, hev, hpend, happ]
  simp [singleRow]

theorem requestGET_after_insert (db : DB) (inp : IntakeInput)
    (hem : falsyStr inp.email = false)
    (hev : emailValid (inp.email.getD "") = true)
    (hpend : db.founders_requests.filter
        (fun r => r.email == jsLower (inp.email.getD "") && r.status == Status.pending) = [])
    (happ : db.founders_requests.filter
        (fun r => r.email == jsLower (inp.email.getD "") && r.status == Status.approved) = []) :
    requestGET
      { db with
          founders_requests := db.founders_requests ++ [newRequestRow db inp]
          nextId := db.nextId + 1
          now := db.now + 1 } inp.email = .found Status.pending db.now := by
  have hrow : (newRequestRow db inp).email = jsLower (inp.email.getD "") := by
    unfold newRequestRow
    exact jsTrim_jsLower_of_emailValid _ hev
  have hold : db.founders_requests.filter
      (fun r => r.email == jsLower (inp.email.getD "")) = [] := by
    apply List.filter_eq_nil_iff.mpr
    intro r hr hcontra
    cases hst : r.status with
    | pending =>
      exact List.filter_eq_nil_iff.mp hpend r hr (by simp [hcontra, hst])
    | approved =>
      exact List.filter_eq_nil_iff.mp happ r hr (by simp [hcontra, hst])
  unfold requestGET
  rw [hem]
  simp only [Bool.false_eq_true, if_false]
  rw [List.filter_append, hold, List.nil_append, List.filter_cons]
  rw [if_pos (by rw [hrow]; simp)]
  rfl

/-- The intake submission of the worked example in the repository
documentation. -/
def janeInput : IntakeInput :=
  ⟨some "Jane Doe", some "JANE@X.COM", some "+1 555", some "Designer", none⟩

/-- A pending stored request used as a concrete test fixture. -/
def exReq : FoundersRequest :=
  ⟨1, "Jane Doe", "jane@x.com", "+1 555", "Designer", none, Status.pending, 0⟩

/-- A store holding exactly the pending request `exReq`. -/
def exDB : DB := ⟨[exReq], [], 2, 1⟩

/-- A random stream that always draws 0 (every generated code is
`FC-AAAAAAAA`). -/
def zeroRand : Nat → Nat := fun _ => 0

/-- C1: for every sequence of intake, approval and status-lookup operations
run from the empty store, the `founders_requests` table never holds more than
one row with status `pending` per (case-insensitive) email; in particular
intake never inserts a second pending row for an email that already has one,
and no other operation creates pending rows. -/
theorem founders_requests_pending_unique (ops : List Op) : pendingUniqueCI (runOps ops) :=
  (reachInv_runOps ops).2.1

/-- C9: for every sequence of sequentially executed operations run from the
empty store, no two rows of the `founders_invite_codes` table share the same
code string: each successful approval inserts a code that differs from every
previously inserted one. -/
theorem invite_codes_globally_unique (ops : List Op) : codesDistinct (runOps ops) :=
  (reachInv_runOps ops).2.2

/-- C2: for every valid, non-duplicate submission, intake succeeds: it
returns the new row's identifier, stores the string fields trimmed, the
email lower-cased and status `pending`, and a subsequent `GET` status lookup
for that email reports a request with status `pending`. -/
theorem intake_success_then_pending (db : DB) (inp : IntakeInput)
    (hfn : falsyStr inp.fullName = false) (hem : falsyStr inp.email = false)
    (hph : falsyStr inp.phone = false) (hpr : falsyStr inp.profession = false)
    (hev : emailValid (inp.email.getD "") = true)
    (hpend : db.founders_requests.filter
        (fun r => r.email == jsLower (inp.email.getD "") && r.status == Status.pending) = [])
    (happ : db.founders_requests.filter
        (fun r => r.email == jsLower (inp.email.getD "") && r.status == Status.approved) = []) :
    (intakePOST db inp).1 = .success db.nextId ∧
    (intakePOST db inp).2.founders_requests = db.founders_requests ++ [newRequestRow db inp] ∧
    (newRequestRow db inp).id = db.nextId ∧
    (newRequestRow db inp).full_name = jsTrim (inp.fullName.getD "") ∧
    (newRequestRow db inp).email = jsLower (inp.email.getD "") ∧
    (newRequestRow db inp).phone = jsTrim (inp.phone.getD "") ∧
    (newRequestRow db inp).profession = jsTrim (inp.profession.getD "") ∧
    (newRequestRow db inp).status = Status.pending ∧
    requestGET (intakePOST db inp).2 inp.email = .found Status.pending db.now := by
  have hmain := intakePOST_success_eq db inp hfn hem hph hpr hev hpend happ
  refine ⟨by rw [hmain], by rw [hmain], rfl, rfl, ?_, rfl, rfl, rfl, ?_⟩
  · unfold newRequestRow
    exact jsTrim_jsLower_of_emailValid _ hev
  · rw [hmain]
    exact requestGET_after_insert db inp hem hev hpend happ

/-- Witness for C2 at the worked example `janeInput` on the empty store. -/
theorem intake_success_then_pending_witness :
    (intakePOST emptyDB janeInput).1 = .success emptyDB.nextId ∧
    (intakePOST emptyDB janeInput).2.founders_requests =
      emptyDB.founders_requests ++ [newRequestRow emptyDB janeInput] ∧
    (newRequestRow emptyDB janeInput).id = emptyDB.nextId ∧
    (newRequestRow emptyDB janeInput).full_name = jsTrim (janeInput.fullName.getD "") ∧
    (newRequestRow emptyDB janeInput).email = jsLower (janeInput.email.getD "") ∧
    (newRequestRow emptyDB janeInput).phone = jsTrim (janeInput.phone.getD "") ∧
    (newRequestRow emptyDB janeInput).profession = jsTrim (janeInput.profession.getD "") ∧
    (newRequestRow emptyDB janeInput).status = Status.pending ∧
    requestGET (intakePOST emptyDB janeInput).2 janeInput.email =
      .found Status.pending emptyDB.now :=
  intake_success_then_pending emptyDB janeInput rfl rfl rfl rfl (by decide) rfl rfl

/-- C3: once the fetch succeeded, the request is pending and the invite-code
row has been committed, the approval reports success with the code and
expiry, for every combination of the status-update failing and the
notification email failing: neither failure changes the response. -/
theorem approve_success_despite_secondary_failures (db : DB) (rid : Nat) (rand : Nat → Nat)
    (hrid : rid ≠ 0) (req : FoundersRequest)
    (hfetch : singleRow (db.founders_requests.filter (fun r => r.id == rid)) = some req)
    (hpend : req.status = Status.pending)
    (c : String) (hcode : findUniqueCode db.founders_invite_codes rand = some c) :
    ∀ u e : Bool,
      (approvePOST db (some rid) rand ⟨false, false, u, e⟩).1 =
        .success c (db.now + seventyTwoHoursMs) := by
  intro u e
  rw [approvePOST_success_state db rid rand hrid req hfetch hpend c hcode u e]

/-- Witness for C3: both secondary failures present, response still
success. -/
theorem approve_success_despite_secondary_failures_witness :
    (approvePOST exDB (some 1) zeroRand ⟨false, false, true, true⟩).1 =
      .success "FC-AAAAAAAA" (exDB.now + seventyTwoHoursMs) :=
  approve_success_despite_secondary_failures exDB 1 zeroRand (by decide) exReq rfl rfl
    "FC-AAAAAAAA" (by decide) true true

/-- C4 counterexample: on a store whose `founders_requests` table does hold
a request with id 1, a data-store failure while fetching it makes the
approval handler answer 404 Request-not-found, not a 500-class error: the
code folds `fetchError` into the same branch as a missing row. -/
theorem approve_fetch_fault_reported_as_404 :
    (∃ r ∈ exDB.founders_requests, r.id = 1) ∧
    (approvePOST exDB (some 1) zeroRand ⟨true, false, false, false⟩).1 = .notFound := by
  exact ⟨⟨exReq, by simp [exDB], rfl⟩, rfl⟩

/-- C4 amended: approval answers 404 exactly when the fetch comes back
empty, i.e. when no request with the given id exists or when the fetch
itself fails; a data-store failure during the fetch is thus reported as
404 rather than as a 500-class error. -/
theorem approve_notFound_iff (db : DB) (rid : Nat) (rand : Nat → Nat) (f : ApproveFaults)
    (hrid : rid ≠ 0) (hids : requestIdsUnique db) :
    (approvePOST db (some rid) rand f).1 = .notFound ↔
      (f.fetchFault = true ∨ ∀ r ∈ db.founders_requests, r.id ≠ rid) := by
  unfold approvePOST
  dsimp only
  rw [if_neg (by simp [hrid])]
  by_cases hff : f.fetchFault = true
  · rw [if_pos hff]
    exact iff_of_true rfl (Or.inl hff)
  · rw [if_neg hff]
    rcases hsr : singleRow (db.founders_requests.filter (fun r => r.id == rid)) with _ | req
    · rw [hsr]
      constructor
      · intro _
        right
        have hlen : (db.founders_requests.filter (fun r => r.id == rid)).length ≠ 1 :=
          (singleRow_eq_none_iff _).mp hsr
        have hle : (db.founders_requests.filter (fun r => r.id == rid)).length ≤ 1 :=
          filter_beq_length_le_one db.founders_requests (fun x => x.id) rid hids
        have hnil : db.founders_requests.filter (fun r => r.id == rid) = [] :=
          List.length_eq_zero.mp (by omega)
        intro r hr hid
        have hmem : r ∈ db.founders_requests.filter (fun x => x.id == rid) :=
          List.mem_filter.mpr ⟨hr, by simp [hid]⟩
        rw [hnil] at hmem
        exact absurd hmem (List.not_mem_nil r)
      · intro _; rfl
    · rw [hsr]
      constructor
      · intro h
        dsimp only at h
        exfalso
        split at h
        · exact absurd h (by simp)
        · split at h
          · exact absurd h (by simp)
          · split at h
            · exact absurd h (by simp)
            · exact absurd h (by simp)
      · intro h
        exfalso
        rcases h with h | h
        · exact hff h
        · have hreq : req ∈ db.founders_requests.filter (fun r => r.id == rid) := by
            rw [(singleRow_eq_some_iff _ _).mp hsr]
            simp
          have hmem := List.mem_filter.mp hreq
          exact h req hmem.1 (by simpa using hmem.2)

/-- Witness for the amended C4: a fetch fault on an existing id, and a
genuinely unknown id, both answer 404. -/
theorem approve_notFound_iff_witness :
    ((approvePOST exDB (some 1) zeroRand ⟨true, false, false, false⟩).1 = .notFound ↔
      ((⟨true, false, false, false⟩ : ApproveFaults).fetchFault = true ∨
        ∀ r ∈ exDB.founders_requests, r.id ≠ 1)) ∧
    (approvePOST exDB (some 2) zeroRand ⟨false, false, false, false⟩).1 = .notFound :=
  ⟨approve_notFound_iff exDB 1 zeroRand ⟨true, false, false, false⟩ (by decide)
      (by unfold requestIdsUnique; decide),
   (approve_notFound_iff exDB 2 zeroRand ⟨false, false, false, false⟩ (by decide)
      (by unfold requestIdsUnique; decide)).mpr (Or.inr (by decide))⟩

/-- An approval whose fetched request is not pending answers
already-processed and leaves the store unchanged. -/
theorem approvePOST_not_pending (db : DB) (rid : Nat) (rand : Nat → Nat) (f : ApproveFaults)
    (hrid : rid ≠ 0) (hff : f.fetchFault = false) (req : FoundersRequest)
    (hfetch : singleRow (db.founders_requests.filter (fun r => r.id == rid)) = some req)
    (hnp : req.status ≠ Status.pending) :
    approvePOST db (some rid) rand f = (.alreadyProcessed, db) := by
  unfold approvePOST
  dsimp only
  rw [if_neg (by simp [hrid]), hff]
  simp only [Bool.false_eq_true, if_false, hfetch]
  rw [if_pos hnp]

/-- After the status update of an approval, fetching the same id yields the
same row with status `approved`. -/
theorem singleRow_filter_update (db : DB) (rid : Nat) (req : FoundersRequest)
    (hfetch : singleRow (db.founders_requests.filter (fun r => r.id == rid)) = some req) :
    singleRow ((db.founders_requests.map
      (fun r => if r.id == rid then { r with status := Status.approved } else r)).filter
        (fun r => r.id == rid)) = some { req with status := Status.approved } := by
  have hfil : db.founders_requests.filter (fun r => r.id == rid) = [req] :=
    (singleRow_eq_some_iff _ _).mp hfetch
  have hreqid : (req.id == rid) = true := by
    have hmem : req ∈ db.founders_requests.filter (fun r => r.id == rid) := by
      rw [hfil]; simp
    exact (List.mem_filter.mp hmem).2
  have hswap : (db.founders_requests.map
      (fun r => if r.id == rid then { r with status := Status.approved } else r)).filter
        (fun r => r.id == rid) =
      (db.founders_requests.filter (fun r => r.id == rid)).map
        (fun r => if r.id == rid then { r with status := Status.approved } else r) := by
    rw [List.filter_map]
    congr 1
    apply List.filter_congr
    intro a _
    by_cases hid : a.id = rid <;> simp [hid]
  rw [hswap, hfil]
  simp only [List.map_cons, List.map_nil, if_pos hreqid]
  rfl

/-- C5: approving the same request a second time after a completed first
approval yields the already-processed conflict, and afterwards exactly one
invite-code row carries that request's id. -/
theorem approve_twice_conflict (db : DB) (rid : Nat) (rand : Nat → Nat)
    (hrid : rid ≠ 0) (req : FoundersRequest)
    (hfetch : singleRow (db.founders_requests.filter (fun r => r.id == rid)) = some req)
    (hpend : req.status = Status.pending)
    (c : String) (hcode : findUniqueCode db.founders_invite_codes rand = some c)
    (hnoc : db.founders_invite_codes.filter (fun row => row.request_id == rid) = [])
    (rand2 : Nat → Nat) (f2 : ApproveFaults) (hf2 : f2.fetchFault = false) :
    (approvePOST (approvePOST db (some rid) rand ⟨false, false, false, false⟩).2
        (some rid) rand2 f2).1 = .alreadyProcessed ∧
    ((approvePOST (approvePOST db (some rid) rand ⟨false, false, false, false⟩).2
        (some rid) rand2 f2).2.founders_invite_codes.filter
          (fun row => row.request_id == rid)).length = 1 := by
  have hdb1 : (approvePOST db (some rid) rand ⟨false, false, false, false⟩).2 =
      updateStatusApproved (insertInviteCode db req rid c) rid := by
    rw [approvePOST_success_state db rid rand hrid req hfetch hpend c hcode false false]
    rfl
  have hsecond :
      approvePOST (updateStatusApproved (insertInviteCode db req rid c) rid)
        (some rid) rand2 f2 =
      (.alreadyProcessed, updateStatusApproved (insertInviteCode db req rid c) rid) :=
    approvePOST_not_pending _ rid rand2 f2 hrid hf2 { req with status := Status.approved }
      (singleRow_filter_update db rid req hfetch) (by simp)
  rw [hdb1, hsecond]
  refine ⟨rfl, ?_⟩
  show ((db.founders_invite_codes ++ [newInviteRow db req rid c]).filter
      (fun row => row.request_id == rid)).length = 1
  rw [List.filter_append, hnoc, List.nil_append, List.filter_cons,
      if_pos (by simp [newInviteRow])]
  rfl

/-- Witness for C5 on the concrete fixture store. -/
theorem approve_twice_conflict_witness :
    (approvePOST (approvePOST exDB (some 1) zeroRand ⟨false, false, false, false⟩).2
        (some 1) zeroRand ⟨false, false, false, false⟩).1 = .alreadyProcessed ∧
    ((approvePOST (approvePOST exDB (some 1) zeroRand ⟨false, false, false, false⟩).2
        (some 1) zeroRand ⟨false, false, false, false⟩).2.founders_invite_codes.filter
          (fun row => row.request_id == 1)).length = 1 :=
  approve_twice_conflict exDB 1 zeroRand (by decide) exReq rfl rfl
    "FC-AAAAAAAA" (by decide) rfl zeroRand ⟨false, false, false, false⟩ rfl

/-- C6: a successful approval returns an expiry exactly 72 hours after the
wall-clock instant at which the handler computed it, and the expiry stored
in the inserted invite-code row equals the returned one. -/
theorem approve_expiry_72h (db : DB) (rid : Nat) (rand : Nat → Nat)
    (hrid : rid ≠ 0) (req : FoundersRequest)
    (hfetch : singleRow (db.founders_requests.filter (fun r => r.id == rid)) = some req)
    (hpend : req.status = Status.pending)
    (c : String) (hcode : findUniqueCode db.founders_invite_codes rand = some c)
    (u e : Bool) :
    (approvePOST db (some rid) rand ⟨false, false, u, e⟩).1 =
      .success c (db.now + 72 * 60 * 60 * 1000) ∧
    (approvePOST db (some rid) rand ⟨false, false, u, e⟩).2.founders_invite_codes =
      db.founders_invite_codes ++ [newInviteRow db req rid c] ∧
    (newInviteRow db req rid c).expires_at = db.now + 72 * 60 * 60 * 1000 := by
  have hstate := approvePOST_success_state db rid rand hrid req hfetch hpend c hcode u e
  refine ⟨by rw [hstate]; rfl, ?_, rfl⟩
  rw [hstate]
  cases u
  · rfl
  · rfl

/-- Witness for C6 on the concrete fixture store. -/
theorem approve_expiry_72h_witness :
    (approvePOST exDB (some 1) zeroRand ⟨false, false, false, false⟩).1 =
      .success "FC-AAAAAAAA" (exDB.now + 72 * 60 * 60 * 1000) ∧
    (approvePOST exDB (some 1) zeroRand ⟨false, false, false, false⟩).2.founders_invite_codes =
      exDB.founders_invite_codes ++ [newInviteRow exDB exReq 1 "FC-AAAAAAAA"] ∧
    (newInviteRow exDB exReq 1 "FC-AAAAAAAA").expires_at = exDB.now + 72 * 60 * 60 * 1000 :=
  approve_expiry_72h exDB 1 zeroRand (by decide) exReq rfl rfl "FC-AAAAAAAA" (by decide)
    false false

/-- Shape of a well-formed invite code: `FC-` then 8 characters of the
32-symbol alphabet. -/
def codeFormatOk (s : String) : Bool :=
  s.data.take 3 == ['F', 'C', '-'] &&
  (s.data.drop 3).length == 8 &&
  (s.data.drop 3).all (fun c => inviteChars.contains c)

/-- C7: every code the generator produces, and hence every code a successful
approval returns, is `FC-` followed by exactly 8 characters drawn from the
32-symbol alphabet `ABCDEFGHJKLMNPQRSTUVWXYZ23456789`. -/
theorem invite_code_format :
    (∀ (rand : Nat → Nat) (k : Nat), codeFormatOk (generateInviteCode rand k) = true) ∧
    (∀ (db : DB) (rid : Option Nat) (rand : Nat → Nat) (f : ApproveFaults)
       (c : String) (t : Nat),
      (approvePOST db rid rand f).1 = .success c t → codeFormatOk c = true) := by
  have hgen : ∀ (rand : Nat → Nat) (k : Nat),
      codeFormatOk (generateInviteCode rand k) = true := by
    intro rand k
    have hdata : (generateInviteCode rand k).data =
        'F' :: 'C' :: '-' ::
          (List.range 8).map (fun i => inviteChars.getD (rand (8*k + i) % 32) 'A') := by
      unfold generateInviteCode
      simp [String.data_append]
    unfold codeFormatOk
    rw [hdata]
    simp only [List.take_succ_cons, List.take_zero, List.drop_succ_cons, List.drop_zero,
      List.length_map, List.length_range, beq_self_eq_true, Bool.true_and]
    apply List.all_eq_true.mpr
    intro x hx
    obtain ⟨i, hi, rfl⟩ := List.mem_map.mp hx
    apply List.elem_eq_true_of_mem
    have hlen : inviteChars.length = 32 := by decide
    have hlt : rand (8*k + i) % 32 < inviteChars.length := by
      rw [hlen]; exact Nat.mod_lt _ (by norm_num)
    rw [List.getD_eq_getElem _ _ hlt]
    exact List.getElem_mem hlt
  refine ⟨hgen, ?_⟩
  intro db rid rand f c t h
  obtain ⟨j, hj⟩ :=
    (findUniqueCode_eq_some _ _ _ (approvePOST_success_code db rid rand f c t h)).2
  rw [hj]
  exact hgen rand j

/-- Witness for C7 at a concrete draw and a concrete successful approval. -/
theorem invite_code_format_witness :
    codeFormatOk (generateInviteCode zeroRand 0) = true ∧
    codeFormatOk "FC-AAAAAAAA" = true :=
  ⟨invite_code_format.1 zeroRand 0,
   invite_code_format.2 exDB (some 1) zeroRand ⟨false, false, false, false⟩
     "FC-AAAAAAAA" (exDB.now + seventyTwoHoursMs) (by decide)⟩

/-- C8: with the request fetched and pending, the approval fails with the
generation error exactly when all ten collision checks find the candidate
taken, and in that case the store is left unchanged: no invite-code row is
inserted and the request stays pending. -/
theorem approve_generation_bound (db : DB) (rid : Nat) (rand : Nat → Nat) (f : ApproveFaults)
    (hrid : rid ≠ 0) (hff : f.fetchFault = false)
    (req : FoundersRequest)
    (hfetch : singleRow (db.founders_requests.filter (fun r => r.id == rid)) = some req)
    (hpend : req.status = Status.pending) :
    ((approvePOST db (some rid) rand f).1 = .generationFailure ↔
      ∀ k < 10, codeTaken db.founders_invite_codes (generateInviteCode rand k) = true) ∧
    ((approvePOST db (some rid) rand f).1 = .generationFailure →
      (approvePOST db (some rid) rand f).2 = db) := by
  have hred := approvePOST_reaches_codegen db rid rand f hrid hff req hfetch hpend
  rcases hgen : findUniqueCode db.founders_invite_codes rand with _ | c
  · rw [hgen] at hred
    rw [hred]
    exact ⟨iff_of_true rfl ((findUniqueCode_eq_none_iff _ _).mp hgen), fun _ => rfl⟩
  · rw [hgen] at hred
    dsimp only at hred
    rw [hred]
    have hnotfail : ¬ ((if f.insertFault = true then (ApproveResult.insertFailure, db)
        else (ApproveResult.success c (db.now + seventyTwoHoursMs),
              if f.updateFault = true then insertInviteCode db req rid c
              else updateStatusApproved (insertInviteCode db req rid c) rid)).1 =
          ApproveResult.generationFailure) := by
      by_cases hins : f.insertFault = true
      · rw [if_pos hins]
        simp
      · rw [if_neg hins]
        simp
    refine ⟨iff_of_false hnotfail ?_, fun h => absurd h hnotfail⟩
    intro hall
    have hnone : findUniqueCode db.founders_invite_codes rand = none :=
      (findUniqueCode_eq_none_iff _ _).mpr hall
    rw [hgen] at hnone
    exact absurd hnone (by simp)

/-- An invite-code row holding the code the all-zero stream generates. -/
def collCode : InviteCode := ⟨1, "FC-AAAAAAAA", "jane@x.com", "+1 555", 1, 42⟩

/-- A store in which every candidate the all-zero stream generates
collides. -/
def collDB : DB := ⟨[exReq], [collCode], 2, 1⟩

/-- Witness for C8: with `collDB` and the all-zero stream every candidate
collides, so the approval fails with the generation error. -/
theorem approve_generation_bound_witness :
    ((approvePOST collDB (some 1) zeroRand ⟨false, false, false, false⟩).1 =
        .generationFailure ↔
      ∀ k < 10, codeTaken collDB.founders_invite_codes (generateInviteCode zeroRand k) = true) ∧
    ((approvePOST collDB (some 1) zeroRand ⟨false, false, false, false⟩).1 =
        .generationFailure →
      (approvePOST collDB (some 1) zeroRand ⟨false, false, false, false⟩).2 = collDB) :=
  approve_generation_bound collDB 1 zeroRand ⟨false, false, false, false⟩ (by decide) rfl
    exReq rfl rfl

/-- C10: a required field that is the empty string is rejected with the
validation error exactly as if it were absent, while required fields of
blank whitespace pass the required-field check and are stored as the empty
string after trimming on an otherwise successful submission. -/
theorem intake_blank_required_fields :
    (∀ (db : DB) (e p pr n : Option String),
       intakePOST db ⟨some "", e, p, pr, n⟩ = (.validationError, db) ∧
       intakePOST db ⟨none, e, p, pr, n⟩ = (.validationError, db)) ∧
    (∀ (db : DB) (fn e pr n : Option String),
       intakePOST db ⟨fn, e, some "", pr, n⟩ = (.validationError, db) ∧
       intakePOST db ⟨fn, e, none, pr, n⟩ = (.validationError, db)) ∧
    (∀ (db : DB) (fn e p n : Option String),
       intakePOST db ⟨fn, e, p, some "", n⟩ = (.validationError, db) ∧
       intakePOST db ⟨fn, e, p, none, n⟩ = (.validationError, db)) ∧
    (∀ (db : DB) (inp : IntakeInput) (w1 w2 w3 : String),
       inp.fullName = some w1 → inp.phone = some w2 → inp.profession = some w3 →
       w1 ≠ "" → w2 ≠ "" → w3 ≠ "" →
       (∀ c ∈ w1.data, c.isWhitespace = true) →
       (∀ c ∈ w2.data, c.isWhitespace = true) →
       (∀ c ∈ w3.data, c.isWhitespace = true) →
       falsyStr inp.email = false →
       emailValid (inp.email.getD "") = true →
       db.founders_requests.filter
         (fun r => r.email == jsLower (inp.email.getD "") && r.status == Status.pending) = [] →
       db.founders_requests.filter
         (fun r => r.email == jsLower (inp.email.getD "") && r.status == Status.approved) = [] →
       (intakePOST db inp).1 = .success db.nextId ∧
       (newRequestRow db inp).full_name = "" ∧
       (newRequestRow db inp).phone = "" ∧
       (newRequestRow db inp).profession = "") := by
  refine ⟨?_, ?_, ?_, ?_⟩
  · intro db e p pr n
    constructor <;> (unfold intakePOST; rw [if_pos (by simp [falsyStr])])
  · intro db fn e pr n
    constructor <;> (unfold intakePOST; rw [if_pos (by simp [falsyStr])])
  · intro db fn e p n
    constructor <;> (unfold intakePOST; rw [if_pos (by simp [falsyStr])])
  · intro db inp w1 w2 w3 h1 h2 h3 hne1 hne2 hne3 hws1 hws2 hws3 hem hev hpend happ
    have hfn : falsyStr inp.fullName = false := by
      rw [h1]; simpa [falsyStr] using hne1
    have hph : falsyStr inp.phone = false := by
      rw [h2]; simpa [falsyStr] using hne2
    have hpr : falsyStr inp.profession = false := by
      rw [h3]; simpa [falsyStr] using hne3
    have hmain := intakePOST_success_eq db inp hfn hem hph hpr hev hpend happ
    refine ⟨by rw [hmain], ?_, ?_, ?_⟩
    · show jsTrim (inp.fullName.getD "") = ""
      rw [h1]
      show (⟨trimChars w1.data⟩ : String) = ""
      rw [trimChars_of_all_ws _ hws1]
    · show jsTrim (inp.phone.getD "") = ""
      rw [h2]
      show (⟨trimChars w2.data⟩ : String) = ""
      rw [trimChars_of_all_ws _ hws2]
    · show jsTrim (inp.profession.getD "") = ""
      rw [h3]
      show (⟨trimChars w3.data⟩ : String) = ""
      rw [trimChars_of_all_ws _ hws3]

/-- A submission whose required string fields are a single blank. -/
def wsInput : IntakeInput := ⟨some " ", some "JANE@X.COM", some " ", some " ", none⟩

/-- Witness for C10: empty versus absent field on the empty store, and the
all-blank submission stored with empty fields. -/
theorem intake_blank_required_fields_witness :
    (intakePOST emptyDB ⟨some "", some "a@b.c", some "1", some "x", none⟩ =
      (.validationError, emptyDB)) ∧
    (intakePOST emptyDB ⟨none, some "a@b.c", some "1", some "x", none⟩ =
      (.validationError, emptyDB)) ∧
    (intakePOST emptyDB wsInput).1 = .success emptyDB.nextId ∧
    (newRequestRow emptyDB wsInput).full_name = "" ∧
    (newRequestRow emptyDB wsInput).phone = "" ∧
    (newRequestRow emptyDB wsInput).profession = "" := by
  have hA := intake_blank_required_fields.1 emptyDB (some "a@b.c") (some "1") (some "x") none
  have hB := intake_blank_required_fields.2.2.2 emptyDB wsInput " " " " " "
    rfl rfl rfl (by decide) (by decide) (by decide) (by decide) (by decide) (by decide)
    rfl (by decide) rfl rfl
  exact ⟨hA.1, hA.2, hB.1, hB.2.1, hB.2.2.1, hB.2.2.2⟩
